import Mathlib

/-!
Shallow embedding of `src/portfolio_class.py` (stock_profit repository).

Modelling conventions:

* A Python `datetime` is modelled as an integer number of seconds
  (`Datetime := Int`).  `date.strftime('%Y-%m-%d')` maps a datetime to its
  calendar day; ISO date strings compare lexicographically exactly as their
  day numbers compare numerically, so the date string of a datetime is
  modelled as the floor of its seconds over 86400 (`dayOf`).  Python's
  `(end - start).days` is floor division of the difference by 86400
  (`timedelta` normalisation is floor), modelled with `Int.fdiv`.
* Python floats are modelled as `Rat` (the arithmetic in the claims is
  exact: sums, differences, quotients of finitely many values).
* A Python dict is an association list with unique keys; `dictGet` is
  lookup of the (unique) binding, `dictSet` is `d[k] = v` (replace the
  binding when present, append when absent), `dictDel` is `del d[k]`
  (the key's binding is removed; since keys are unique, filtering every
  binding of the key is the same operation).
* The external quote provider (`requests.get` of the Alpha Vantage
  TIME_SERIES_DAILY endpoint) is a black box; one call returns a
  `ProviderResponse`: a network/HTTP failure (`requests.RequestException`),
  a payload without the "Time Series (Daily)" key, or a time series mapping
  day to closing price.  The fetch does not depend on the requested date
  (the code always requests the full series for the symbol), so a
  deterministic provider is a function `String → ProviderResponse` from
  symbol to response.
* Every `raise` site of the Python code is a distinct constructor of
  `PriceErr` (inside `Stock.price`, all `ValueError`) or `LedgerError`
  (inside `Portfolio` methods: `ValueError`, `KeyError`, and the
  `ZeroDivisionError` that `1 / years_diff` raises when `years_diff == 0.0`).
  Fallible methods return `Except`; state mutation is explicit state
  passing.
* `Stock.price` additionally returns the number of external fetches the
  call performed (0 on a cache hit, 1 otherwise), used to state the
  caching claims.
-/

/-- Decidable equality of `Except` values, so that concrete runs of the
embedded methods can be checked by `decide`. -/
instance {ε α : Type} [DecidableEq ε] [DecidableEq α] : DecidableEq (Except ε α) :=
  fun x y =>
    match x, y with
    | .error a, .error b => decidable_of_iff (a = b) (by simp)
    | .error _, .ok _ => isFalse (fun h => Except.noConfusion h)
    | .ok _, .error _ => isFalse (fun h => Except.noConfusion h)
    | .ok a, .ok b => decidable_of_iff (a = b) (by simp)

/-- A Python `datetime`, as seconds (time-of-day included, which matters for
`(end - start).days`). -/
abbrev Datetime := Int

/-- The calendar day of a datetime: the model of `date.strftime('%Y-%m-%d')`,
with ISO-string comparison realised as integer comparison. -/
def dayOf (t : Datetime) : Int :=
  t.fdiv 86400

/-- Python `(end_date - start_date).days`: floor of the difference in days. -/
def daysBetween (s e : Datetime) : Int :=
  (e - s).fdiv 86400

/-- Python dict lookup `d.get(k)` / `k in d` on an association list with
unique keys: the first (hence only) binding of the key. -/
def dictGet {κ α : Type} [DecidableEq κ] : List (κ × α) → κ → Option α
  | [], _ => none
  | (k', v) :: rest, k => if k' = k then some v else dictGet rest k

/-- Python dict assignment `d[k] = v`: replace the binding when the key is
present, append a new binding when it is absent. -/
def dictSet {κ α : Type} [DecidableEq κ] : List (κ × α) → κ → α → List (κ × α)
  | [], k, v => [(k, v)]
  | (k', v') :: rest, k, v =>
      if k' = k then (k, v) :: rest else (k', v') :: dictSet rest k v

/-- Python dict deletion `del d[k]`: remove the key's binding (keys are
unique, so removing every binding of the key is the same operation). -/
def dictDel {κ α : Type} [DecidableEq κ] (l : List (κ × α)) (k : κ) : List (κ × α) :=
  l.filter (fun e => !(decide (e.1 = k)))

/-- The "Time Series (Daily)" payload: calendar day ↦ closing price
(the `"4. close"` field, already parsed by `float(...)`). -/
abbrev TimeSeries := List (Int × Rat)

/-- One provider call's outcome, seen by `Stock.price`. -/
inductive ProviderResponse : Type
  /-- `requests.get` / `raise_for_status` raised `requests.RequestException`. -/
  | fail : ProviderResponse
  /-- Well-formed JSON without the `"Time Series (Daily)"` key. -/
  | noSeries : ProviderResponse
  /-- A time series payload. -/
  | series (ts : TimeSeries) : ProviderResponse
deriving DecidableEq

/-- The `ValueError`s `Stock.price` raises, one constructor per raise site. -/
inductive PriceErr : Type
  /-- `"API request failed: ..."` (re-raised `requests.RequestException`). -/
  | requestFailed : PriceErr
  /-- `"API Error: ..."` (payload missing `"Time Series (Daily)"`). -/
  | apiError : PriceErr
  /-- `"No price data available for {symbol} on or before {date_str}"`. -/
  | noData (symbol : String) (day : Int) : PriceErr
deriving DecidableEq

/-- The `Stock` class: immutable symbol and name, mutable per-instance price
cache `_price_cache` mapping date string (modelled as day number) to price. -/
structure Stock : Type where
  symbol : String
  name : String
  cache : List (Int × Rat)
deriving DecidableEq

/-- Insertion step of descending insertion sort on day numbers. -/
def insertDesc (x : Int) : List Int → List Int
  | [] => [x]
  | y :: ys => if y ≤ x then x :: y :: ys else y :: insertDesc x ys

/-- Python `sorted(keys, reverse=True)`: the keys in descending order
(dict keys are distinct, so any sorting algorithm yields the same list;
insertion sort keeps the model kernel-computable). -/
def sortDesc : List Int → List Int
  | [] => []
  | x :: xs => insertDesc x (sortDesc xs)

/-- `Stock._find_closest_trading_day`: sort the series' keys in descending
order and return the first one `<=` the target date string. -/
def find_closest_trading_day (targetDay : Int) (ts : TimeSeries) : Option Int :=
  (sortDesc (ts.map Prod.fst)).find? (fun d => decide (d ≤ targetDay))

/-- `Stock.price(date, api_key)`: answer from `_price_cache` when the date
string is cached; otherwise fetch the symbol's daily series (`resp` is that
one call's outcome), try the exact date, fall back to the closest previous
trading day, cache a success under the originally requested date string, and
turn every failure into a `ValueError`.  Returns the result, the updated
stock (its cache possibly grown), and the number of external fetches
performed (0 or 1). -/
def Stock.price (s : Stock) (date : Datetime) (resp : ProviderResponse) :
    Except PriceErr Rat × Stock × Nat :=
  let dateStr := dayOf date
  match dictGet s.cache dateStr with
  | some p => (.ok p, s, 0)
  | none =>
    match resp with
    | .fail => (.error .requestFailed, s, 1)
    | .noSeries => (.error .apiError, s, 1)
    | .series ts =>
      match dictGet ts dateStr with
      | some p => (.ok p, { s with cache := (dateStr, p) :: s.cache }, 1)
      | none =>
        match find_closest_trading_day dateStr ts with
        | some d =>
          match dictGet ts d with
          | some p => (.ok p, { s with cache := (dateStr, p) :: s.cache }, 1)
          | none => (.error (.noData s.symbol dateStr), s, 1)
        | none => (.error (.noData s.symbol dateStr), s, 1)

/-- A deterministic provider: the response each symbol's full-series fetch
gets (the request never depends on the date). -/
abbrev Provider := String → ProviderResponse

/-- Errors raised by `Portfolio` methods, one constructor per raise site. -/
inductive LedgerError : Type
  /-- `ValueError("Quantity must be a positive integer")` in `add_stock`. -/
  | invalidQuantity : LedgerError
  /-- `KeyError(f"Stock {symbol} is not in the portfolio")` in `remove_stock`. -/
  | unknownSymbol (symbol : String) : LedgerError
  /-- `ValueError("Cannot remove ... shares ...")` in `remove_stock`. -/
  | insufficientShares (symbol : String) (requested held : Int) : LedgerError
  /-- `ValueError("Start date must be before end date")`. -/
  | invalidDateRange : LedgerError
  /-- `ValueError("Portfolio had zero or negative value on start date")`. -/
  | zeroOrNegativeStart : LedgerError
  /-- Python `ZeroDivisionError` from `1 / years_diff` when `years_diff == 0.0`. -/
  | zeroDivisionError : LedgerError
deriving DecidableEq

/-- The `Portfolio` class: `self.stocks` maps symbol to a `(Stock, quantity)`
pair; `self.api_key` is carried but plays no role in the model. -/
structure Portfolio : Type where
  stocks : List (String × Stock × Int)
  api_key : String
deriving DecidableEq

/-- `Portfolio.add_stock(stock, quantity)`: reject a non-positive quantity
(the `isinstance(quantity, int)` half of the check is enforced by the `Int`
type of the embedding), then `self.stocks[stock.symbol] = (...)` — summing
into the existing `(Stock, quantity)` pair when the symbol is held, keeping
the stored `Stock`, or binding the new pair otherwise. -/
def Portfolio.add_stock (p : Portfolio) (stock : Stock) (quantity : Int) :
    Except LedgerError Portfolio :=
  if quantity ≤ 0 then .error .invalidQuantity
  else
    let entry :=
      match dictGet p.stocks stock.symbol with
      | some (existing_stock, existing_quantity) =>
          (existing_stock, existing_quantity + quantity)
      | none => (stock, quantity)
    .ok { p with stocks := dictSet p.stocks stock.symbol entry }

/-- `Portfolio.remove_stock(symbol, quantity)`: `KeyError` when the symbol is
not held, `ValueError` when `quantity` exceeds the held amount, deletion of
the binding when it equals it, decrement otherwise. -/
def Portfolio.remove_stock (p : Portfolio) (symbol : String) (quantity : Int) :
    Except LedgerError Portfolio :=
  match dictGet p.stocks symbol with
  | none => .error (.unknownSymbol symbol)
  | some (stock, existing_quantity) =>
    if existing_quantity < quantity then
      .error (.insufficientShares symbol quantity existing_quantity)
    else if quantity = existing_quantity then
      .ok { p with stocks := dictDel p.stocks symbol }
    else
      .ok { p with stocks :=
              dictSet p.stocks symbol (stock, existing_quantity - quantity) }

/-- The loop body of `Portfolio.get_value`: price each holding in turn
(each fetch hits the deterministic provider `env` at the holding's symbol),
add `price * quantity` into the running total on success, catch the
`ValueError` (a printed warning) and skip the holding on failure.  Returns
the total, the holdings with their (possibly grown) caches, and the number
of external fetches performed. -/
def get_value_go (l : List (String × Stock × Int)) (date : Datetime) (env : Provider) :
    Rat × List (String × Stock × Int) × Nat :=
  match l with
  | [] => (0, [], 0)
  | (sym, stock, qty) :: rest =>
    let r := Stock.price stock date (env sym)
    let rec_result := get_value_go rest date env
    match r.1 with
    | .ok pr => (pr * (qty : Rat) + rec_result.1,
                 (sym, r.2.1, qty) :: rec_result.2.1, r.2.2 + rec_result.2.2)
    | .error _ => (rec_result.1, (sym, r.2.1, qty) :: rec_result.2.1,
                   r.2.2 + rec_result.2.2)

/-- `Portfolio.get_value(date)`: the summed value of the holdings (0 when
the portfolio is empty or every resolution failed), never raising; the
`time.sleep(0.2)` rate-limit delay has no modelled effect. -/
def Portfolio.get_value (p : Portfolio) (date : Datetime) (env : Provider) :
    Rat × Portfolio × Nat :=
  let r := get_value_go p.stocks date env
  (r.1, { p with stocks := r.2.1 }, r.2.2)

/-- `Portfolio.profit(start_date, end_date)`: `ValueError` when
`start_date > end_date`; otherwise `get_value(end) - get_value(start)`,
the start valuation running first (the `isinstance(..., datetime)` checks
are enforced by the `Datetime` type of the embedding). -/
def Portfolio.profit (p : Portfolio) (start_date end_date : Datetime) (env : Provider) :
    Except LedgerError (Rat × Portfolio) :=
  if end_date < start_date then .error .invalidDateRange
  else
    let r1 := p.get_value start_date env
    let r2 := r1.2.1.get_value end_date env
    .ok (r2.1 - r1.1, r2.2.1)

/-- `Portfolio.annualized_return(start_date, end_date)`: `ValueError` when
`start_date >= end_date` or the start valuation is `<= 0`; then
`years_diff = (end_date - start_date).days / 365.25` and
`total_return = end_value / start_value`, and `1 / years_diff` raises
`ZeroDivisionError` when `years_diff == 0.0` (exactly when `.days == 0`).
The final real-exponentiation step
`total_return ** (1 / years_diff) - 1` is irrational in general and is not
modelled; a success returns the fully determined pair
`(total_return, years_diff)` it is computed from. -/
def Portfolio.annualized_return (p : Portfolio) (start_date end_date : Datetime)
    (env : Provider) : Except LedgerError (Rat × Rat) :=
  if start_date ≥ end_date then .error .invalidDateRange
  else
    let r1 := p.get_value start_date env
    if r1.1 ≤ 0 then .error .zeroOrNegativeStart
    else
      let r2 := r1.2.1.get_value end_date env
      let days_diff : Int := daysBetween start_date end_date
      let years_diff : Rat := (days_diff : Rat) / (1461 / 4 : Rat)
      if years_diff = 0 then .error .zeroDivisionError
      else .ok (r2.1 / r1.1, years_diff)


/-- The value a single holding contributes to a valuation: `price * quantity`
on success, nothing (a printed warning) on failure. -/
def holdingContribution (date : Datetime) (env : Provider) (e : String × Stock × Int) : Rat :=
  match (Stock.price e.2.1 date (env e.1)).1 with
  | .ok pr => pr * (e.2.2 : Rat)
  | .error _ => 0

/-- The invariant of §3 of the spec: every holding's share count is
strictly positive. -/
def positiveCounts (p : Portfolio) : Prop :=
  ∀ e ∈ p.stocks, 0 < e.2.2

/-! Helper lemmas about the dict model. -/

theorem dictGet_dictSet_self {κ α : Type} [DecidableEq κ] (l : List (κ × α)) (k : κ) (v : α) :
    dictGet (dictSet l k v) k = some v := by
  induction l with
  | nil => simp [dictGet, dictSet]
  | cons e rest ih =>
    by_cases h : e.1 = k
    · simp [dictSet, dictGet, h]
    · simpa [dictSet, dictGet, h] using ih

theorem dictGet_dictSet_ne {κ α : Type} [DecidableEq κ] (l : List (κ × α)) (k k' : κ) (v : α)
    (h : k' ≠ k) : dictGet (dictSet l k v) k' = dictGet l k' := by
  induction l with
  | nil => simp [dictGet, dictSet, Ne.symm h]
  | cons e rest ih =>
    by_cases he : e.1 = k
    · subst he
      simp [dictSet, dictGet, Ne.symm h]
    · by_cases he' : e.1 = k' <;> simp [dictSet, dictGet, he, he', ih, h]

theorem dictGet_dictDel_self {κ α : Type} [DecidableEq κ] (l : List (κ × α)) (k : κ) :
    dictGet (dictDel l k) k = none := by
  induction l with
  | nil => rfl
  | cons e rest ih =>
    by_cases h : e.1 = k
    · simpa [dictDel, List.filter_cons, h] using ih
    · simpa [dictDel, List.filter_cons, h, dictGet] using ih

theorem mem_dictSet {κ α : Type} [DecidableEq κ] {l : List (κ × α)} {k : κ} {v : α}
    {e : κ × α} (h : e ∈ dictSet l k v) : e = (k, v) ∨ e ∈ l := by
  induction l with
  | nil => simpa [dictSet] using h
  | cons e' rest ih =>
    by_cases h' : e'.1 = k
    · rw [dictSet, if_pos h'] at h
      rcases List.mem_cons.mp h with h | h
      · exact Or.inl h
      · exact Or.inr (List.mem_cons_of_mem _ h)
    · rw [dictSet, if_neg h'] at h
      rcases List.mem_cons.mp h with h | h
      · exact Or.inr (List.mem_cons.mpr (Or.inl h))
      · rcases ih h with h | h
        · exact Or.inl h
        · exact Or.inr (List.mem_cons_of_mem _ h)

theorem mem_dictDel {κ α : Type} [DecidableEq κ] {l : List (κ × α)} {k : κ}
    {e : κ × α} (h : e ∈ dictDel l k) : e ∈ l :=
  (List.mem_filter.mp h).1

theorem dictGet_eq_none_iff {κ α : Type} [DecidableEq κ] (l : List (κ × α)) (k : κ) :
    dictGet l k = none ↔ k ∉ l.map Prod.fst := by
  induction l with
  | nil => simp [dictGet]
  | cons e rest ih =>
    by_cases h : e.1 = k
    · subst h
      simp [dictGet]
    · simp [dictGet, h, ih, Ne.symm h]

theorem dictGet_isSome_of_mem {κ α : Type} [DecidableEq κ] {l : List (κ × α)} {k : κ}
    (h : k ∈ l.map Prod.fst) : ∃ v, dictGet l k = some v := by
  cases hv : dictGet l k with
  | none => exact absurd h ((dictGet_eq_none_iff l k).mp hv)
  | some v => exact ⟨v, rfl⟩

theorem dictSet_of_not_mem {κ α : Type} [DecidableEq κ] {l : List (κ × α)} {k : κ} (v : α)
    (h : dictGet l k = none) : dictSet l k v = l ++ [(k, v)] := by
  induction l with
  | nil => simp [dictSet]
  | cons e rest ih =>
    by_cases he : e.1 = k
    · rw [dictGet, if_pos he] at h
      exact absurd h (by simp)
    · rw [dictGet, if_neg he] at h
      rw [dictSet, if_neg he, ih h, List.cons_append]

theorem map_fst_dictSet_of_mem {κ α : Type} [DecidableEq κ] {l : List (κ × α)} {k : κ} (v : α)
    (h : k ∈ l.map Prod.fst) : (dictSet l k v).map Prod.fst = l.map Prod.fst := by
  induction l with
  | nil => simp at h
  | cons e rest ih =>
    by_cases he : e.1 = k
    · simp [dictSet, he]
    · rw [List.map_cons] at h
      rcases List.mem_cons.mp h with h' | h'
      · exact absurd h'.symm he
      · simp [dictSet, he, ih h']

/-! Helper lemmas about the fallback search and `Stock.price`. -/

theorem mem_insertDesc {a x : Int} {l : List Int} :
    a ∈ insertDesc x l ↔ a = x ∨ a ∈ l := by
  induction l with
  | nil => simp [insertDesc]
  | cons y ys ih =>
    by_cases h : y ≤ x
    · simp [insertDesc, h]
    · simp [insertDesc, h, ih]
      tauto

theorem mem_sortDesc {a : Int} {l : List Int} : a ∈ sortDesc l ↔ a ∈ l := by
  induction l with
  | nil => simp [sortDesc]
  | cons x xs ih => simp [sortDesc, mem_insertDesc, ih]

theorem find_closest_le {t : Int} {ts : TimeSeries} {d : Int}
    (h : find_closest_trading_day t ts = some d) : d ≤ t := by
  rw [find_closest_trading_day] at h
  have h2 := List.find?_some h
  simpa using h2

theorem find_closest_mem {t : Int} {ts : TimeSeries} {d : Int}
    (h : find_closest_trading_day t ts = some d) : d ∈ ts.map Prod.fst := by
  rw [find_closest_trading_day] at h
  exact mem_sortDesc.mp (List.mem_of_find?_eq_some h)

theorem find_closest_isSome_iff (t : Int) (ts : TimeSeries) :
    (find_closest_trading_day t ts).isSome = true ↔ ∃ kv ∈ ts, kv.1 ≤ t := by
  rw [find_closest_trading_day, List.find?_isSome]
  constructor
  · rintro ⟨x, hx, hxt⟩
    rcases List.mem_map.mp (mem_sortDesc.mp hx) with ⟨kv, hkv, rfl⟩
    exact ⟨kv, hkv, of_decide_eq_true hxt⟩
  · rintro ⟨kv, hkv, hle⟩
    exact ⟨kv.1, mem_sortDesc.mpr (List.mem_map.mpr ⟨kv, hkv, rfl⟩),
      decide_eq_true hle⟩

theorem price_cached_hit {s : Stock} {date : Datetime} {p : Rat}
    (h : dictGet s.cache (dayOf date) = some p) (resp : ProviderResponse) :
    Stock.price s date resp = (.ok p, s, 0) := by
  simp [Stock.price, h]

theorem price_ok_cache {s : Stock} {date : Datetime} {resp : ProviderResponse} {p : Rat}
    (h : (Stock.price s date resp).1 = .ok p) :
    dictGet ((Stock.price s date resp).2.1).cache (dayOf date) = some p := by
  cases hc : dictGet s.cache (dayOf date) with
  | some q =>
    simp [Stock.price, hc] at h ⊢
    exact h ▸ rfl
  | none =>
    cases resp with
    | fail => simp [Stock.price, hc] at h
    | noSeries => simp [Stock.price, hc] at h
    | series ts =>
      cases hts : dictGet ts (dayOf date) with
      | some q =>
        simp [Stock.price, hc, hts, dictGet] at h ⊢
        exact h
      | none =>
        cases hf : find_closest_trading_day (dayOf date) ts with
        | none => simp [Stock.price, hc, hts, hf] at h
        | some d =>
          cases htd : dictGet ts d with
          | none => simp [Stock.price, hc, hts, hf, htd] at h
          | some q =>
            simp [Stock.price, hc, hts, hf, htd, dictGet] at h ⊢
            exact h

theorem price_miss_fetch {s : Stock} {date : Datetime} (resp : ProviderResponse)
    (h : dictGet s.cache (dayOf date) = none) :
    (Stock.price s date resp).2.2 = 1 := by
  cases resp with
  | fail => simp [Stock.price, h]
  | noSeries => simp [Stock.price, h]
  | series ts =>
    cases hts : dictGet ts (dayOf date) with
    | some q => simp [Stock.price, h, hts]
    | none =>
      cases hf : find_closest_trading_day (dayOf date) ts with
      | none => simp [Stock.price, h, hts, hf]
      | some d =>
        cases htd : dictGet ts d with
        | none => simp [Stock.price, h, hts, hf, htd]
        | some q => simp [Stock.price, h, hts, hf, htd]

theorem price_idem (s : Stock) (date : Datetime) (resp : ProviderResponse) :
    (Stock.price ((Stock.price s date resp).2.1) date resp).1 = (Stock.price s date resp).1
    ∧ (Stock.price ((Stock.price s date resp).2.1) date resp).2.1
        = (Stock.price s date resp).2.1 := by
  cases hc : dictGet s.cache (dayOf date) with
  | some q => simp [price_cached_hit hc, Stock.price, hc]
  | none =>
    cases resp with
    | fail => simp [Stock.price, hc]
    | noSeries => simp [Stock.price, hc]
    | series ts =>
      cases hts : dictGet ts (dayOf date) with
      | some q =>
        have hcache : dictGet ((dayOf date, q) :: s.cache) (dayOf date) = some q := by
          simp [dictGet]
        simp [Stock.price, hc, hts, hcache]
      | none =>
        cases hf : find_closest_trading_day (dayOf date) ts with
        | none => simp [Stock.price, hc, hts, hf]
        | some d =>
          cases htd : dictGet ts d with
          | none => simp [Stock.price, hc, hts, hf, htd]
          | some q =>
            have hcache : dictGet ((dayOf date, q) :: s.cache) (dayOf date) = some q := by
              simp [dictGet]
            simp [Stock.price, hc, hts, hf, htd, hcache]

/-! Helper lemmas about `Portfolio.get_value`. -/


theorem get_value_go_sum (l : List (String × Stock × Int)) (date : Datetime)
    (env : Provider) :
    (get_value_go l date env).1 = (l.map (holdingContribution date env)).sum := by
  induction l with
  | nil => simp [get_value_go]
  | cons e rest ih =>
    obtain ⟨sym, stock, qty⟩ := e
    cases hr : (Stock.price stock date (env sym)).1 with
    | ok pr => simp [get_value_go, hr, ih, holdingContribution]
    | error err => simp [get_value_go, hr, ih, holdingContribution]

theorem get_value_go_idem (l : List (String × Stock × Int)) (date : Datetime)
    (env : Provider) :
    (get_value_go (get_value_go l date env).2.1 date env).1
      = (get_value_go l date env).1 := by
  induction l with
  | nil => simp [get_value_go]
  | cons e rest ih =>
    obtain ⟨sym, stock, qty⟩ := e
    have hp := price_idem stock date (env sym)
    cases hr : (Stock.price stock date (env sym)).1 with
    | ok pr =>
      have hval : (Stock.price ((Stock.price stock date (env sym)).2.1) date (env sym)).1
          = .ok pr := by rw [hp.1, hr]
      simp [get_value_go, hr, hval, ih]
    | error err =>
      have hval : (Stock.price ((Stock.price stock date (env sym)).2.1) date (env sym)).1
          = .error err := by rw [hp.1, hr]
      simp [get_value_go, hr, hval, ih]



theorem dictGet_some_mem_pair {κ α : Type} [DecidableEq κ] {l : List (κ × α)} {k : κ}
    {v : α} (h : dictGet l k = some v) : (k, v) ∈ l := by
  induction l with
  | nil => simp [dictGet] at h
  | cons e rest ih =>
    by_cases he : e.1 = k
    · rw [dictGet, if_pos he] at h
      have : e = (k, v) := by
        obtain ⟨e1, e2⟩ := e
        simp_all
      exact this ▸ List.mem_cons_self e rest
    · rw [dictGet, if_neg he] at h
      exact List.mem_cons_of_mem _ (ih h)

theorem mem_of_dictGet_some {κ α : Type} [DecidableEq κ] {l : List (κ × α)} {k : κ}
    {v : α} (h : dictGet l k = some v) : k ∈ l.map Prod.fst := by
  by_contra hk
  rw [(dictGet_eq_none_iff l k).mpr hk] at h
  exact Option.noConfusion h

theorem pairwise_insertDesc {x : Int} {l : List Int}
    (h : l.Pairwise (fun a b : Int => b ≤ a)) :
    (insertDesc x l).Pairwise (fun a b : Int => b ≤ a) := by
  induction l with
  | nil => simp [insertDesc]
  | cons y ys ih =>
    rcases List.pairwise_cons.mp h with ⟨hy, hys⟩
    by_cases hyx : y ≤ x
    · rw [insertDesc, if_pos hyx]
      refine List.pairwise_cons.mpr ⟨?_, h⟩
      intro b hb
      rcases List.mem_cons.mp hb with rfl | hb
      · exact hyx
      · exact le_trans (hy b hb) hyx
    · rw [insertDesc, if_neg hyx]
      refine List.pairwise_cons.mpr ⟨?_, ih hys⟩
      intro b hb
      rcases mem_insertDesc.mp hb with rfl | hb
      · exact le_of_not_le hyx
      · exact hy b hb

theorem pairwise_sortDesc (l : List Int) :
    (sortDesc l).Pairwise (fun a b : Int => b ≤ a) := by
  induction l with
  | nil => simp [sortDesc]
  | cons x xs ih => exact pairwise_insertDesc ih

theorem find?_le_first {L : List Int} {t d : Int}
    (hs : L.Pairwise (fun a b : Int => b ≤ a))
    (h : L.find? (fun x => decide (x ≤ t)) = some d) :
    ∀ k ∈ L, k ≤ t → k ≤ d := by
  induction L with
  | nil => simp at h
  | cons a L ih =>
    rcases List.pairwise_cons.mp hs with ⟨ha, hL⟩
    intro k hk hkt
    by_cases hat : a ≤ t
    · rw [List.find?_cons_of_pos _ (by simpa using hat)] at h
      have had : a = d := Option.some.inj h
      rcases List.mem_cons.mp hk with rfl | hk
      · exact had ▸ le_refl k
      · exact had ▸ ha k hk
    · rw [List.find?_cons_of_neg _ (by simpa using hat)] at h
      rcases List.mem_cons.mp hk with rfl | hk
      · exact absurd hkt hat
      · exact ih hL h k hk hkt

theorem find_closest_nearest {t d : Int} {ts : TimeSeries}
    (h : find_closest_trading_day t ts = some d) :
    ∀ k ∈ ts.map Prod.fst, k ≤ t → k ≤ d := by
  intro k hk hkt
  rw [find_closest_trading_day] at h
  exact find?_le_first (pairwise_sortDesc _) h k (mem_sortDesc.mpr hk) hkt

/-! Claim theorems. -/

/-- C9: for every requested date and provider time series, the fallback
search only ever returns a trading date less than or equal to the requested
date, never a later one, and among the series' trading dates not after the
requested one it returns the nearest (largest): the resolved price is that
of the nearest prior (or same-day) trading day. -/
theorem C9_fallback_nearest_prior {t : Int} {ts : TimeSeries} {d : Int}
    (h : find_closest_trading_day t ts = some d) :
    d ≤ t ∧ d ∈ ts.map Prod.fst ∧ ∀ k ∈ ts.map Prod.fst, k ≤ t → k ≤ d :=
  ⟨find_closest_le h, find_closest_mem h, find_closest_nearest h⟩

/-- Witness for C9 at a concrete series: requesting day 20 over trading days
18, 22, 15 resolves to 18. -/
theorem C9_fallback_nearest_prior_witness :
    (18 : Int) ≤ 20 ∧ (18 : Int) ∈ ([((18 : Int), (7 : Rat)), (22, 5), (15, 3)]).map Prod.fst
      ∧ ∀ k ∈ ([((18 : Int), (7 : Rat)), (22, 5), (15, 3)]).map Prod.fst, k ≤ 20 → k ≤ 18 :=
  @C9_fallback_nearest_prior 20 [(18, 7), (22, 5), (15, 3)] 18 (by decide)

/-- C6: removing strictly more shares than held fails with the
`InsufficientShares` error (`ValueError` naming the symbol, the requested
and the held quantity); a failed call returns only the error, so the ledger
is unchanged by construction. -/
theorem C6_remove_insufficient_fails (p : Portfolio) (symbol : String) (stock : Stock)
    (held n : Int) (h : dictGet p.stocks symbol = some (stock, held)) (hn : held < n) :
    Portfolio.remove_stock p symbol n = .error (.insufficientShares symbol n held) := by
  simp [Portfolio.remove_stock, h, hn]

/-- Witness for C6: removing 5 shares when 3 are held fails. -/
theorem C6_remove_insufficient_fails_witness :
    Portfolio.remove_stock ⟨[("A", ⟨"A", "a", []⟩, 3)], "k"⟩ "A" 5
      = .error (.insufficientShares "A" 5 3) :=
  C6_remove_insufficient_fails ⟨[("A", ⟨"A", "a", []⟩, 3)], "k"⟩ "A" ⟨"A", "a", []⟩ 3 5
    (by decide) (by decide)

/-- C5: for every ledger, date and provider, `profit(d, d)` succeeds and
returns 0 (the two valuations agree: the second pass is served from the
caches the first pass filled, or repeats the same deterministic failure),
while `annualized_return(d, d)` fails with `InvalidDateRange` because its
date check is strict. -/
theorem C5_profit_zero_annualized_rejects (p : Portfolio) (d : Datetime) (env : Provider) :
    (Portfolio.profit p d d env).map Prod.fst = .ok 0
    ∧ Portfolio.annualized_return p d d env = .error .invalidDateRange := by
  constructor
  · have hgo := get_value_go_idem p.stocks d env
    simp [Portfolio.profit, Portfolio.get_value, lt_irrefl, hgo, Except.map]
  · simp [Portfolio.annualized_return, ge_iff_le, le_refl]

/-- C4: valuation never raises (it is a total function into the totals): a
holding whose price resolution fails contributes nothing and does not abort
the others, the result being the sum of the successfully resolved holdings'
`price * quantity` contributions, and 0 when the ledger is empty or every
resolution failed. -/
theorem C4_valuation_skips_failures (p : Portfolio) (date : Datetime) (env : Provider) :
    (Portfolio.get_value p date env).1 = (p.stocks.map (holdingContribution date env)).sum
    ∧ (p.stocks = [] → (Portfolio.get_value p date env).1 = 0)
    ∧ ((∀ e ∈ p.stocks, ∃ er, (Stock.price e.2.1 date (env e.1)).1 = .error er) →
        (Portfolio.get_value p date env).1 = 0) := by
  refine ⟨get_value_go_sum p.stocks date env, ?_, ?_⟩
  · intro h
    simp [Portfolio.get_value, h, get_value_go]
  · intro h
    have hzero : ∀ x ∈ p.stocks.map (holdingContribution date env), x = 0 := by
      intro x hx
      rcases List.mem_map.mp hx with ⟨e, he, rfl⟩
      rcases h e he with ⟨er, her⟩
      simp [holdingContribution, her]
    calc (Portfolio.get_value p date env).1
        = (p.stocks.map (holdingContribution date env)).sum :=
          get_value_go_sum p.stocks date env
      _ = 0 := List.sum_eq_zero hzero

/-- Witness for C4: a two-holding ledger where one resolution fails; the
total is the surviving holding's contribution, and with every resolution
failing the total is 0. -/
theorem C4_valuation_skips_failures_witness :
    (Portfolio.get_value ⟨[("A", ⟨"A", "a", []⟩, 2)], "k"⟩ 0 (fun _ => .fail)).1
      = (([("A", (⟨"A", "a", []⟩ : Stock), (2 : Int))]).map
          (holdingContribution 0 (fun _ => .fail))).sum
    ∧ (Portfolio.get_value ⟨[("A", ⟨"A", "a", []⟩, 2)], "k"⟩ 0 (fun _ => .fail)).1 = 0 :=
  ⟨(C4_valuation_skips_failures ⟨[("A", ⟨"A", "a", []⟩, 2)], "k"⟩ 0 (fun _ => .fail)).1,
   (C4_valuation_skips_failures ⟨[("A", ⟨"A", "a", []⟩, 2)], "k"⟩ 0 (fun _ => .fail)).2.2
     (by
       intro e he
       simp only [List.mem_singleton] at he
       subst he
       exact ⟨.requestFailed, by decide⟩)⟩

/-- C7: `add_stock` rejects every non-positive quantity with the
`InvalidQuantity` error (non-integer quantities are excluded by the `Int`
type of the embedding); adding a symbol not yet held binds the given record
and quantity; adding the same symbol twice with positive quantities q1, q2
leaves a single binding holding q1 + q2. -/
theorem C7_add_quantities (p : Portfolio) (stock : Stock) (q q1 q2 : Int) :
    (q ≤ 0 → Portfolio.add_stock p stock q = .error .invalidQuantity)
    ∧ (dictGet p.stocks stock.symbol = none → 0 < q →
       ∃ p', Portfolio.add_stock p stock q = .ok p'
         ∧ dictGet p'.stocks stock.symbol = some (stock, q))
    ∧ (dictGet p.stocks stock.symbol = none → 0 < q1 → 0 < q2 →
       ∃ p1 p2, Portfolio.add_stock p stock q1 = .ok p1
         ∧ Portfolio.add_stock p1 stock q2 = .ok p2
         ∧ dictGet p2.stocks stock.symbol = some (stock, q1 + q2)
         ∧ (p2.stocks.map Prod.fst).count stock.symbol = 1) := by
  refine ⟨?_, ?_, ?_⟩
  · intro hq
    simp [Portfolio.add_stock, hq]
  · intro h hq
    refine ⟨{ p with stocks := dictSet p.stocks stock.symbol (stock, q) }, ?_, ?_⟩
    · simp [Portfolio.add_stock, not_le.mpr hq, h]
    · simpa using dictGet_dictSet_self p.stocks stock.symbol (stock, q)
  · intro h hq1 hq2
    refine ⟨{ p with stocks := dictSet p.stocks stock.symbol (stock, q1) },
      { p with stocks :=
          dictSet (dictSet p.stocks stock.symbol (stock, q1)) stock.symbol (stock, q1 + q2) },
      ?_, ?_, ?_, ?_⟩
    · simp [Portfolio.add_stock, not_le.mpr hq1, h]
    · have hget : dictGet (dictSet p.stocks stock.symbol (stock, q1)) stock.symbol
          = some (stock, q1) := dictGet_dictSet_self p.stocks stock.symbol (stock, q1)
      simp [Portfolio.add_stock, not_le.mpr hq2, hget]
    · simpa using dictGet_dictSet_self (dictSet p.stocks stock.symbol (stock, q1))
        stock.symbol (stock, q1 + q2)
    · have hmem : stock.symbol ∈ (dictSet p.stocks stock.symbol (stock, q1)).map Prod.fst :=
        mem_of_dictGet_some (dictGet_dictSet_self p.stocks stock.symbol (stock, q1))
      have hkeys2 : (dictSet (dictSet p.stocks stock.symbol (stock, q1)) stock.symbol
            (stock, q1 + q2)).map Prod.fst
          = (dictSet p.stocks stock.symbol (stock, q1)).map Prod.fst :=
        map_fst_dictSet_of_mem _ hmem
      have hkeys1 : (dictSet p.stocks stock.symbol (stock, q1)).map Prod.fst
          = p.stocks.map Prod.fst ++ [stock.symbol] := by
        rw [dictSet_of_not_mem _ h, List.map_append]
        rfl
      have hnot : stock.symbol ∉ p.stocks.map Prod.fst := (dictGet_eq_none_iff _ _).mp h
      simp [hkeys2, hkeys1, List.count_append, List.count_eq_zero.mpr hnot]

/-- Witness for C7: on an empty ledger, adding quantity 0 fails with
`InvalidQuantity`; adding 2 then 3 shares of "A" leaves one binding of 5. -/
theorem C7_add_quantities_witness :
    Portfolio.add_stock ⟨[], "k"⟩ ⟨"A", "a", []⟩ 0 = .error .invalidQuantity
    ∧ (∃ p1 p2, Portfolio.add_stock ⟨[], "k"⟩ ⟨"A", "a", []⟩ 2 = .ok p1
        ∧ Portfolio.add_stock p1 ⟨"A", "a", []⟩ 3 = .ok p2
        ∧ dictGet p2.stocks "A" = some (⟨"A", "a", []⟩, 2 + 3)
        ∧ (p2.stocks.map Prod.fst).count "A" = 1) :=
  ⟨(C7_add_quantities ⟨[], "k"⟩ ⟨"A", "a", []⟩ 0 2 3).1 (by decide),
   (C7_add_quantities ⟨[], "k"⟩ ⟨"A", "a", []⟩ 0 2 3).2.2 (by decide) (by decide) (by decide)⟩

/-- C8: the ledger invariant "every held entry has a strictly positive share
count" is preserved by `add_stock` and `remove_stock`; removing exactly the
held amount deletes the binding entirely (a zero count is never stored), and
a subsequent removal for that symbol fails with `UnknownSymbol`. -/
theorem C8_positive_count_invariant (p : Portfolio) (stock : Stock) (symbol : String)
    (q n held : Int) :
    (positiveCounts p → ∀ p', Portfolio.add_stock p stock q = .ok p' → positiveCounts p')
    ∧ (positiveCounts p → ∀ p', Portfolio.remove_stock p symbol q = .ok p' → positiveCounts p')
    ∧ (dictGet p.stocks symbol = some (stock, held) →
       ∃ p', Portfolio.remove_stock p symbol held = .ok p'
         ∧ dictGet p'.stocks symbol = none
         ∧ Portfolio.remove_stock p' symbol n = .error (.unknownSymbol symbol)) := by
  refine ⟨?_, ?_, ?_⟩
  · intro hp p' hadd e he
    by_cases hq : q ≤ 0
    · simp [Portfolio.add_stock, hq] at hadd
    · cases hg : dictGet p.stocks stock.symbol with
      | some pair =>
        obtain ⟨es, eq⟩ := pair
        simp only [Portfolio.add_stock, if_neg hq, hg] at hadd
        injection hadd with h'
        subst h'
        rcases mem_dictSet he with rfl | hmem
        · have h1 : 0 < eq := hp _ (dictGet_some_mem_pair hg)
          have h2 : 0 < q := not_le.mp hq
          simpa using add_pos h1 h2
        · exact hp e hmem
      | none =>
        simp only [Portfolio.add_stock, if_neg hq, hg] at hadd
        injection hadd with h'
        subst h'
        rcases mem_dictSet he with rfl | hmem
        · simpa using not_le.mp hq
        · exact hp e hmem
  · intro hp p' hrem e he
    cases hg : dictGet p.stocks symbol with
    | none => simp [Portfolio.remove_stock, hg] at hrem
    | some pair =>
      obtain ⟨st0, eq⟩ := pair
      by_cases hlt : eq < q
      · simp [Portfolio.remove_stock, hg, hlt] at hrem
      · by_cases heq : q = eq
        · simp only [Portfolio.remove_stock, hg, if_neg hlt, if_pos heq] at hrem
          injection hrem with h'
          subst h'
          exact hp e (mem_dictDel he)
        · simp only [Portfolio.remove_stock, hg, if_neg hlt, if_neg heq] at hrem
          injection hrem with h'
          subst h'
          rcases mem_dictSet he with rfl | hmem
          · have : q < eq := lt_of_le_of_ne (not_lt.mp hlt) heq
            simpa using sub_pos.mpr this
          · exact hp e hmem
  · intro hg
    refine ⟨{ p with stocks := dictDel p.stocks symbol }, ?_, ?_, ?_⟩
    · simp [Portfolio.remove_stock, hg, lt_irrefl]
    · simpa using dictGet_dictDel_self p.stocks symbol
    · have hnone : dictGet (dictDel p.stocks symbol) symbol = none :=
        dictGet_dictDel_self p.stocks symbol
      simp [Portfolio.remove_stock, hnone]

/-- Witness for C8 on a one-holding ledger with 3 shares of "A": adding 1
preserves the invariant, removing 2 preserves it, and removing all 3
deletes the binding after which removal fails with `UnknownSymbol`. -/
theorem C8_positive_count_invariant_witness :
    positiveCounts ⟨[("A", ⟨"A", "a", []⟩, 4)], "k"⟩
    ∧ positiveCounts ⟨[("A", ⟨"A", "a", []⟩, 1)], "k"⟩
    ∧ (∃ p', Portfolio.remove_stock ⟨[("A", ⟨"A", "a", []⟩, 3)], "k"⟩ "A" 3 = .ok p'
        ∧ dictGet p'.stocks "A" = none
        ∧ Portfolio.remove_stock p' "A" 1 = .error (.unknownSymbol "A")) :=
  ⟨(C8_positive_count_invariant ⟨[("A", ⟨"A", "a", []⟩, 3)], "k"⟩ ⟨"A", "a", []⟩ "A" 1 1 3).1
      (by intro e he; simp only [List.mem_singleton] at he; subst he; decide)
      ⟨[("A", ⟨"A", "a", []⟩, 4)], "k"⟩ (by decide),
   (C8_positive_count_invariant ⟨[("A", ⟨"A", "a", []⟩, 3)], "k"⟩ ⟨"A", "a", []⟩ "A" 2 1 3).2.1
      (by intro e he; simp only [List.mem_singleton] at he; subst he; decide)
      ⟨[("A", ⟨"A", "a", []⟩, 1)], "k"⟩ (by decide),
   (C8_positive_count_invariant ⟨[("A", ⟨"A", "a", []⟩, 3)], "k"⟩ ⟨"A", "a", []⟩ "A" 2 1 3).2.2
      (by decide)⟩

/-- C10: adding further shares under an already-held symbol keeps the
originally stored record (with its accumulated price cache) and discards the
newly supplied record: the binding becomes the original record with the
summed quantity, every other key's binding is unchanged, and the API key
field is unchanged. -/
theorem C10_add_keeps_stored_record (p : Portfolio) (stock stock0 : Stock) (q0 q : Int)
    (h : dictGet p.stocks stock.symbol = some (stock0, q0)) (hq : 0 < q) :
    ∃ p', Portfolio.add_stock p stock q = .ok p'
      ∧ dictGet p'.stocks stock.symbol = some (stock0, q0 + q)
      ∧ (∀ k, k ≠ stock.symbol → dictGet p'.stocks k = dictGet p.stocks k)
      ∧ p'.api_key = p.api_key := by
  refine ⟨{ p with stocks := dictSet p.stocks stock.symbol (stock0, q0 + q) }, ?_, ?_, ?_, rfl⟩
  · simp [Portfolio.add_stock, not_le.mpr hq, h]
  · simpa using dictGet_dictSet_self p.stocks stock.symbol (stock0, q0 + q)
  · intro k hk
    simpa using dictGet_dictSet_ne p.stocks stock.symbol k (stock0, q0 + q) hk

/-- Witness for C10: adding 2 shares of "A" with a fresh cacheless record to
a ledger holding 3 shares under a record with a cached price keeps the
cached record and sums the quantity; the unrelated key "B" is untouched. -/
theorem C10_add_keeps_stored_record_witness :
    ∃ p', Portfolio.add_stock
        ⟨[("A", ⟨"A", "a", [(0, 100)]⟩, 3), ("B", ⟨"B", "b", []⟩, 7)], "k"⟩ ⟨"A", "a2", []⟩ 2
        = .ok p'
      ∧ dictGet p'.stocks "A" = some (⟨"A", "a", [(0, 100)]⟩, 3 + 2)
      ∧ (∀ k, k ≠ "A" → dictGet p'.stocks k
          = dictGet ([("A", (⟨"A", "a", [(0, 100)]⟩ : Stock), (3 : Int)),
              ("B", ⟨"B", "b", []⟩, 7)]) k)
      ∧ p'.api_key = "k" :=
  C10_add_keeps_stored_record
    ⟨[("A", ⟨"A", "a", [(0, 100)]⟩, 3), ("B", ⟨"B", "b", []⟩, 7)], "k"⟩ ⟨"A", "a2", []⟩
    ⟨"A", "a", [(0, 100)]⟩ 3 2 (by decide) (by decide)

/-- C3: a successful resolution on a cache miss performs exactly one
external fetch, caches the price keyed by the originally requested date
(whatever fallback date the data came from), and a second resolution of the
same date — whatever the provider would answer this time — returns the
cached price with no fetch (0 external calls), so the two calls together
perform exactly one fetch. -/
theorem C3_cache_keyed_by_requested_date (s : Stock) (date : Datetime)
    (resp resp2 : ProviderResponse) (p : Rat)
    (hmiss : dictGet s.cache (dayOf date) = none)
    (hok : (Stock.price s date resp).1 = .ok p) :
    (Stock.price s date resp).2.2 = 1
    ∧ dictGet ((Stock.price s date resp).2.1).cache (dayOf date) = some p
    ∧ Stock.price ((Stock.price s date resp).2.1) date resp2
        = (.ok p, (Stock.price s date resp).2.1, 0) :=
  ⟨price_miss_fetch resp hmiss, price_ok_cache hok,
    price_cached_hit (price_ok_cache hok) resp2⟩

/-- Witness for C3: requesting day 3 (a non-trading day of the series) with
data only at day 1 resolves to 10 via fallback, is cached under day 3 (the
requested date), and the second call is served from cache even though the
provider would now fail. -/
theorem C3_cache_keyed_by_requested_date_witness :
    (Stock.price ⟨"AAPL", "Apple", []⟩ (3 * 86400) (.series [(1, 10)])).2.2 = 1
    ∧ dictGet ((Stock.price ⟨"AAPL", "Apple", []⟩ (3 * 86400)
        (.series [(1, 10)])).2.1).cache (dayOf (3 * 86400)) = some 10
    ∧ Stock.price ((Stock.price ⟨"AAPL", "Apple", []⟩ (3 * 86400)
        (.series [(1, 10)])).2.1) (3 * 86400) .fail
      = (.ok 10, (Stock.price ⟨"AAPL", "Apple", []⟩ (3 * 86400) (.series [(1, 10)])).2.1, 0) :=
  C3_cache_keyed_by_requested_date ⟨"AAPL", "Apple", []⟩ (3 * 86400) (.series [(1, 10)])
    .fail 10 (by decide) (by decide)

/-- C1 counterexample: the backward fallback search of the code is not
bounded by 4-5 days.  With a series whose only trading day is more than 5
days before the requested date (day 0 versus requested day 20), the claim
predicts a `PriceUnavailable` failure, but `Stock.price` succeeds with the
price of day 0. -/
theorem C1_no_bounded_search_counterexample :
    (∀ kv ∈ ([((0 : Int), (10 : Rat))]), kv.1 + 5 < dayOf (20 * 86400))
    ∧ (Stock.price ⟨"AAPL", "Apple", []⟩ (20 * 86400) (.series [(0, 10)])).1 = .ok 10 := by
  exact ⟨by decide, by decide⟩

/-- C1 (amended): on a cache miss the fallback search is unbounded — over a
fetched series the resolution succeeds exactly when some trading day of the
series is on or before the requested date, however far back, and it fails
with the `ValueError` taxonomy (`PriceUnavailable`) when the provider call
fails, when the payload has no time series, or when every trading day of
the series is after the requested date. -/
theorem C1_unbounded_backward_search (s : Stock) (date : Datetime) (ts : TimeSeries)
    (hmiss : dictGet s.cache (dayOf date) = none) :
    ((∃ pr, (Stock.price s date (.series ts)).1 = .ok pr) ↔ ∃ kv ∈ ts, kv.1 ≤ dayOf date)
    ∧ (Stock.price s date .fail).1 = .error .requestFailed
    ∧ (Stock.price s date .noSeries).1 = .error .apiError
    ∧ ((∀ kv ∈ ts, ¬ kv.1 ≤ dayOf date) →
        (Stock.price s date (.series ts)).1 = .error (.noData s.symbol (dayOf date))) := by
  refine ⟨⟨?_, ?_⟩, by simp [Stock.price, hmiss], by simp [Stock.price, hmiss], ?_⟩
  · rintro ⟨pr, hpr⟩
    cases hts : dictGet ts (dayOf date) with
    | some q => exact ⟨(dayOf date, q), dictGet_some_mem_pair hts, le_refl _⟩
    | none =>
      cases hf : find_closest_trading_day (dayOf date) ts with
      | none => simp [Stock.price, hmiss, hts, hf] at hpr
      | some d =>
        rcases List.mem_map.mp (find_closest_mem hf) with ⟨kv, hkv, hkvd⟩
        exact ⟨kv, hkv, le_of_eq_of_le hkvd (find_closest_le hf)⟩
  · rintro ⟨kv, hkv, hle⟩
    cases hts : dictGet ts (dayOf date) with
    | some q => exact ⟨q, by simp [Stock.price, hmiss, hts]⟩
    | none =>
      have hsome : (find_closest_trading_day (dayOf date) ts).isSome = true :=
        (find_closest_isSome_iff _ _).mpr ⟨kv, hkv, hle⟩
      rcases Option.isSome_iff_exists.mp hsome with ⟨d, hd⟩
      rcases dictGet_isSome_of_mem (find_closest_mem hd) with ⟨q, hq⟩
      exact ⟨q, by simp [Stock.price, hmiss, hts, hd, hq]⟩
  · intro hnone
    have hts : dictGet ts (dayOf date) = none := by
      cases hts : dictGet ts (dayOf date) with
      | none => rfl
      | some q => exact absurd (le_refl (dayOf date)) (hnone _ (dictGet_some_mem_pair hts))
    have hf : find_closest_trading_day (dayOf date) ts = none := by
      cases hf : find_closest_trading_day (dayOf date) ts with
      | none => rfl
      | some d =>
        rcases List.mem_map.mp (find_closest_mem hf) with ⟨kv, hkv, hkvd⟩
        exact absurd (le_of_eq_of_le hkvd (find_closest_le hf)) (hnone kv hkv)
    simp [Stock.price, hmiss, hts, hf]

/-- Witness for C1 (amended): with data only 20 days back the resolution
still succeeds. -/
theorem C1_unbounded_backward_search_witness :
    ∃ pr, (Stock.price ⟨"AAPL", "Apple", []⟩ (20 * 86400) (.series [(0, 10)])).1 = .ok pr :=
  ((C1_unbounded_backward_search ⟨"AAPL", "Apple", []⟩ (20 * 86400) [(0, 10)]
      (by decide)).1).mpr ⟨(0, 10), by decide, by decide⟩

/-- C2 counterexample: the strict inequality check does not make the
division safe.  `datetime` values carry a time of day; with a start and end
one second apart the strict check `start_date < end_date` passes, yet
`(end_date - start_date).days = 0`, so `years_diff = 0` and the code reaches
the `ZeroDivisionError` of `1 / years_diff` (a positive start valuation is
supplied from the cache so the earlier guards do not mask the division). -/
theorem C2_strict_check_insufficient_counterexample :
    ((0 : Datetime) < 1)
    ∧ daysBetween 0 1 = 0
    ∧ Portfolio.annualized_return ⟨[("A", ⟨"A", "a", [(0, 100)]⟩, 1)], "k"⟩ 0 1
        (fun _ => .noSeries) = .error .zeroDivisionError := by
  refine ⟨by decide, by decide, ?_⟩
  norm_num [Portfolio.annualized_return, Portfolio.get_value, get_value_go, Stock.price,
    dictGet, dayOf, daysBetween, (by decide : Int.fdiv 1 86400 = 0),
    (by decide : Int.fdiv 0 86400 = 0)]

/-- C2 (amended): the division by `years` in `annualized_return` is safe for
date pairs at least one full day apart (in particular for midnight-aligned
calendar dates with `start_date < end_date`, the reading under which the
original claim holds): then `(end_date - start_date).days >= 1`,
`years_diff` is nonzero, and the `ZeroDivisionError` branch is unreachable;
the strict inequality alone does not guarantee this for sub-day datetime
differences. -/
theorem C2_division_safe_one_day_apart (p : Portfolio) (sd ed : Datetime) (env : Provider)
    (h : sd + 86400 ≤ ed) :
    1 ≤ daysBetween sd ed
    ∧ ((daysBetween sd ed : Rat) / ((1461 : Rat) / 4) ≠ 0)
    ∧ Portfolio.annualized_return p sd ed env ≠ .error .zeroDivisionError := by
  have hdays : 1 ≤ daysBetween sd ed := by
    rw [daysBetween, Int.fdiv_eq_ediv _ (by norm_num),
      Int.le_ediv_iff_mul_le (by norm_num : (0 : Int) < 86400)]
    linarith
  have hcast : ((daysBetween sd ed : Int) : Rat) ≠ 0 := by
    have hne : daysBetween sd ed ≠ 0 := by
      intro hz
      rw [hz] at hdays
      exact absurd hdays (by norm_num)
    exact_mod_cast hne
  have hyears : ((daysBetween sd ed : Rat) / ((1461 : Rat) / 4)) ≠ 0 :=
    div_ne_zero hcast (by norm_num)
  refine ⟨hdays, hyears, ?_⟩
  simp only [Portfolio.annualized_return]
  split_ifs with h1 h2
  · simp
  · simp
  · simp

/-- Witness for C2 (amended) at a one-day range over a cached portfolio. -/
theorem C2_division_safe_one_day_apart_witness :
    1 ≤ daysBetween 0 86400
    ∧ ((daysBetween 0 86400 : Rat) / ((1461 : Rat) / 4) ≠ 0)
    ∧ Portfolio.annualized_return ⟨[("A", ⟨"A", "a", [(0, 100)]⟩, 1)], "k"⟩ 0 86400
        (fun _ => .noSeries) ≠ .error .zeroDivisionError :=
  C2_division_safe_one_day_apart ⟨[("A", ⟨"A", "a", [(0, 100)]⟩, 1)], "k"⟩ 0 86400
    (fun _ => .noSeries) (by decide)
